import Mathlib

/-!
Verification of the API Gateway security auditor (`apigateway-audit.py`).

The development shallowly embeds the three components of the script:

* `parse_resource` — `ApiGatewayAuditor.parse_resource` (lines 83-98);
* `audit`          — `ApiGatewayAuditor.audit` (lines 61-81);
* `print_audits`   — `ApiGatewayAuditor.print_audits` (lines 100-110).

Python dictionaries coming back from the cloud provider are modelled as
records whose possibly-missing keys are `Option` fields; a `KeyError`
raised by a missing dictionary lookup is modelled by the `Except KeyErr`
result type.  The provider client is modelled as an already-materialized
snapshot (the list of APIs and, per API id, the list of raw resources),
since the network layer is an external collaborator.
-/

set_option autoImplicit false

namespace ApiGatewayAudit

/-- One value of a `resourceMethods` mapping, as returned by
`get_resources(..., embed=[...])`.  Each of the three keys the script reads
may be absent from the raw dictionary, hence the `Option` fields. -/
structure RawMethodDetail where
  httpMethod : Option String
  authorizationType : Option String
  apiKeyRequired : Option Bool
deriving DecidableEq, Repr

/-- One raw resource item from `get_resources(...)['items']`.  The `path`
key is always present in the provider response shape; the
`resourceMethods` mapping may be absent, and is an insertion-ordered list
of key/value pairs (a Python dict). -/
structure RawResource where
  path : String
  resourceMethods : Option (List (String × RawMethodDetail))
deriving DecidableEq, Repr

/-- The entries of the raw method mapping of a resource (empty when the
`resourceMethods` key is absent). -/
def entriesOf (r : RawResource) : List (String × RawMethodDetail) :=
  r.resourceMethods.getD []

/-- One item of `get_rest_apis()['items']`: the script reads `id`, `name`
and `endpointConfiguration.types`. -/
structure ApiSummary where
  id : String
  name : String
  endpointTypes : List String
deriving DecidableEq, Repr

/-- The per-method dictionary built on line 94:
`{'method': ..., 'authorization_type': ..., 'api_key_required': ...}`. -/
structure MethodSecurity where
  method : String
  authorization_type : String
  api_key_required : Bool
deriving DecidableEq, Repr

/-- The per-resource dictionary built on line 97:
`{"path": ..., "methods": ...}`. -/
structure Resource where
  path : String
  methods : List MethodSecurity
deriving DecidableEq, Repr

/-- The per-API dictionary built on lines 71 and 79.  The `resources` key
is only inserted when at least one parsed resource survived, hence the
`Option` field. -/
structure ApiAudit where
  api_id : String
  name : String
  endpoint_type : List String
  resources : Option (List Resource)
deriving DecidableEq, Repr

/-- A `KeyError` raised by one of the dictionary lookups the script
performs on data that may lack the key. -/
inductive KeyErr where
  | httpMethod
  | authorizationType
  | apiKeyRequired
  | resources
deriving DecidableEq, Repr

/-- The filter condition of line 91:
`self.methods is None or method in self.methods`.  Python `in` on a list
of strings is exact, case-sensitive string equality. -/
def includeMethod (methodsFilter : Option (List String)) (m : String) : Bool :=
  match methodsFilter with
  | none => true
  | some l => decide (m ∈ l)

/-- The loop of lines 89-95: walk the `resourceMethods` entries in mapping
order, read `httpMethod` (raising on absence), keep the entry when the
filter admits it, and then read the two security attributes (raising on
absence). -/
def parseMethods (methodsFilter : Option (List String)) :
    List (String × RawMethodDetail) → Except KeyErr (List MethodSecurity)
  | [] => .ok []
  | (_, value) :: rest =>
    match value.httpMethod with
    | none => .error .httpMethod
    | some method =>
      if includeMethod methodsFilter method then
        match value.authorizationType with
        | none => .error .authorizationType
        | some auth =>
          match value.apiKeyRequired with
          | none => .error .apiKeyRequired
          | some akr =>
            match parseMethods methodsFilter rest with
            | .error e => .error e
            | .ok ms => .ok (⟨method, auth, akr⟩ :: ms)
      else parseMethods methodsFilter rest

/-- `ApiGatewayAuditor.parse_resource` (lines 83-98): returns `none` when
the method list ends up empty, `some` resource otherwise, and raises the
`KeyError` of the first missing attribute. -/
def parse_resource (methodsFilter : Option (List String)) (resource : RawResource) :
    Except KeyErr (Option Resource) :=
  match resource.resourceMethods with
  | none => .ok none
  | some entries =>
    match parseMethods methodsFilter entries with
    | .error e => .error e
    | .ok methods =>
      if methods.isEmpty then .ok none
      else .ok (some ⟨resource.path, methods⟩)

/-- The provider client, modelled as an already-materialized snapshot:
`listApis` is `get_rest_apis()['items']` and `listResources i` is
`get_resources(restApiId=i, embed=['methods'])['items']`. -/
structure GatewayClient where
  listApis : List ApiSummary
  listResources : String → List RawResource

/-- Effectful map over a list in the `Except` monad, stopping at the first
raised error (the behavior of a Python `for` loop whose body may raise). -/
def mapME {α β ε : Type} (f : α → Except ε β) : List α → Except ε (List β)
  | [] => .ok []
  | a :: rest =>
    match f a with
    | .error e => .error e
    | .ok b =>
      match mapME f rest with
      | .error e => .error e
      | .ok bs => .ok (b :: bs)

/-- The inner loop of lines 74-77: parse each raw resource and append the
non-`None` results in the collaborator's resource order. -/
def collectResources (methodsFilter : Option (List String)) :
    List RawResource → Except KeyErr (List Resource)
  | [] => .ok []
  | r :: rest =>
    match parse_resource methodsFilter r with
    | .error e => .error e
    | .ok res_dict =>
      match collectResources methodsFilter rest with
      | .error e => .error e
      | .ok rest' =>
        match res_dict with
        | some rd => .ok (rd :: rest')
        | none => .ok rest'

/-- The body of the API loop (lines 67-80): build the audit dictionary for
one API, attaching the `resources` key only when the raw item list is
non-empty (line 73) and the collected list is non-empty (line 78). -/
def auditOne (methodsFilter : Option (List String)) (client : GatewayClient)
    (item : ApiSummary) : Except KeyErr ApiAudit :=
  let raws := client.listResources item.id
  if raws.isEmpty then
    .ok ⟨item.id, item.name, item.endpointTypes, none⟩
  else
    match collectResources methodsFilter raws with
    | .error e => .error e
    | .ok resources =>
      .ok ⟨item.id, item.name, item.endpointTypes,
           if resources.isEmpty then none else some resources⟩

/-- `ApiGatewayAuditor.audit` (lines 61-81): one audit record per API, in
the collaborator's order. -/
def audit (client : GatewayClient) (methodsFilter : Option (List String)) :
    Except KeyErr (List ApiAudit) :=
  mapME (auditOne methodsFilter client) client.listApis

/-! ### Rendering (`print_audits`, lines 100-110) -/

/-- Python `str` of a `bool`, as interpolated by the f-string of line 110. -/
def pyBool (b : Bool) : String :=
  if b then "True" else "False"

/-- The single-quote character, `chr(39)`. -/
def squote : Char := Char.ofNat 39

/-- The double-quote character, `chr(34)`. -/
def dquote : Char := Char.ofNat 34

/-- One character of a CPython string repr, escaped for the given quoting
character.  (Printable-ASCII scope: the `\xNN`/`\uNNNN` forms CPython uses
for non-printable characters are not modelled; no audited field contains
them.) -/
def pyEscapeChar (quote : Char) (c : Char) : String :=
  if c = Char.ofNat 92 then "\\\\"
  else if c = quote then "\\" ++ String.singleton quote
  else if c = Char.ofNat 10 then "\\n"
  else if c = Char.ofNat 13 then "\\r"
  else if c = Char.ofNat 9 then "\\t"
  else String.singleton c

/-- CPython `repr` of a string: single-quoted, switching to double quotes
when the string contains a single quote but no double quote. -/
def pyStrRepr (s : String) : String :=
  let quote : Char :=
    if s.toList.contains squote && !s.toList.contains dquote then dquote else squote
  String.singleton quote ++ String.join (s.toList.map (pyEscapeChar quote)) ++
    String.singleton quote

/-- Python `str` of a list of strings (as interpolated for
`api['endpoint_type']` on line 110): bracketed, comma-space separated
reprs of the elements. -/
def pyListRepr (l : List String) : String :=
  "[" ++ String.intercalate ", " (l.map pyStrRepr) ++ "]"

/-- The f-string of line 110: one comma-separated row per method, with no
header and no escaping of embedded commas. -/
def csvLine (api : ApiAudit) (resource : Resource) (method : MethodSecurity) : String :=
  api.name ++ "," ++ api.api_id ++ "," ++ pyListRepr api.endpoint_type ++ "," ++
    resource.path ++ "," ++ method.method ++ "," ++ method.authorization_type ++ "," ++
    pyBool method.api_key_required

/-- The fall-through branch of lines 105-110: for each audit record, look
up `api['resources']` (raising `KeyError` when the key is absent) and emit
one row per method of each resource whose method list is non-empty. -/
def csvAudits : List ApiAudit → Except KeyErr (List String)
  | [] => .ok []
  | api :: rest =>
    match api.resources with
    | none => .error .resources
    | some resources =>
      let rows := resources.flatMap fun resource =>
        if resource.methods.isEmpty then []
        else resource.methods.map (csvLine api resource)
      match csvAudits rest with
      | .error e => .error e
      | .ok restRows => .ok (rows ++ restRows)

/-- The JSON values `json.dumps` receives: the script only ever builds
strings, booleans, lists and (insertion-ordered) dictionaries. -/
inductive Json where
  | str : String → Json
  | bool : Bool → Json
  | arr : List Json → Json
  | obj : List (String × Json) → Json

/-- The method dictionary of line 94, as a JSON value (insertion order of
the keys). -/
def methodToJson (m : MethodSecurity) : Json :=
  .obj [("method", .str m.method), ("authorization_type", .str m.authorization_type),
        ("api_key_required", .bool m.api_key_required)]

/-- The resource dictionary of line 97, as a JSON value. -/
def resourceToJson (r : Resource) : Json :=
  .obj [("path", .str r.path), ("methods", .arr (r.methods.map methodToJson))]

/-- The key/value pairs of the per-API dictionary (lines 71 and 79), in
insertion order; the `resources` pair exists only when the field does. -/
def apiAuditFields (a : ApiAudit) : List (String × Json) :=
  [("api_id", .str a.api_id), ("name", .str a.name),
   ("endpoint_type", .arr (a.endpoint_type.map Json.str))] ++
  (match a.resources with
   | none => []
   | some rs => [("resources", .arr (rs.map resourceToJson))])

/-- The per-API dictionary as a JSON value. -/
def apiAuditToJson (a : ApiAudit) : Json :=
  .obj (apiAuditFields a)

/-- The whole `api_audits` list as a JSON value. -/
def reportToJson (report : List ApiAudit) : Json :=
  .arr (report.map apiAuditToJson)

/-- One lowercase hexadecimal digit. -/
def hexDigit (n : Nat) : String :=
  String.singleton (if n < 10 then Char.ofNat (48 + n) else Char.ofNat (87 + n))

/-- Four lowercase hexadecimal digits. -/
def hex4 (n : Nat) : String :=
  hexDigit (n / 4096 % 16) ++ hexDigit (n / 256 % 16) ++ hexDigit (n / 16 % 16) ++
    hexDigit (n % 16)

/-- One character of a JSON string literal as `json.dumps` (with its
default `ensure_ascii=True`) emits it.  (Basic-plane scope: astral
characters, which CPython encodes as surrogate pairs, are not modelled;
no audited field contains them.) -/
def jsonEscapeChar (c : Char) : String :=
  if c = dquote then "\\" ++ String.singleton dquote
  else if c = Char.ofNat 92 then "\\\\"
  else if c = Char.ofNat 10 then "\\n"
  else if c = Char.ofNat 13 then "\\r"
  else if c = Char.ofNat 9 then "\\t"
  else if c = Char.ofNat 8 then "\\b"
  else if c = Char.ofNat 12 then "\\f"
  else if c.toNat < 32 || c.toNat > 126 then "\\u" ++ hex4 c.toNat
  else String.singleton c

/-- A JSON string literal. -/
def jsonQuote (s : String) : String :=
  String.singleton dquote ++ String.join (s.toList.map jsonEscapeChar) ++
    String.singleton dquote

mutual

/-- `json.dumps` with its default separators `", "` and `": "`
(line 104). -/
def dumps : Json → String
  | .str s => jsonQuote s
  | .bool b => if b then "true" else "false"
  | .arr l => "[" ++ String.intercalate ", " (dumpsList l) ++ "]"
  | .obj fs => "\x7b" ++ String.intercalate ", " (dumpsFields fs) ++ "\x7d"

/-- Compact renderings of the elements of a JSON array. -/
def dumpsList : List Json → List String
  | [] => []
  | j :: rest => dumps j :: dumpsList rest

/-- Compact renderings of the members of a JSON object. -/
def dumpsFields : List (String × Json) → List String
  | [] => []
  | (k, v) :: rest => (jsonQuote k ++ ": " ++ dumps v) :: dumpsFields rest

end

/-- Insert a key/value pair into a list sorted by key. -/
def insertByKey (p : String × Json) : List (String × Json) → List (String × Json)
  | [] => [p]
  | q :: rest => if p.1 ≤ q.1 then p :: q :: rest else q :: insertByKey p rest

/-- Sort the members of a JSON object by key (dictionary keys are unique,
so stability is immaterial). -/
def sortByKey : List (String × Json) → List (String × Json)
  | [] => []
  | p :: rest => insertByKey p (sortByKey rest)

mutual

/-- Recursively sort every object's keys, modelling the `sort_keys=True`
of line 102. -/
def sortKeysRec : Json → Json
  | .str s => .str s
  | .bool b => .bool b
  | .arr l => .arr (sortKeysList l)
  | .obj fs => .obj (sortByKey (sortKeysFields fs))

/-- `sortKeysRec` mapped over an array's elements. -/
def sortKeysList : List Json → List Json
  | [] => []
  | j :: rest => sortKeysRec j :: sortKeysList rest

/-- `sortKeysRec` mapped over an object's values. -/
def sortKeysFields : List (String × Json) → List (String × Json)
  | [] => []
  | (k, v) :: rest => (k, sortKeysRec v) :: sortKeysFields rest

end

/-- `4 * level` spaces. -/
def indentStr (level : Nat) : String :=
  String.join (List.replicate (4 * level) " ")

mutual

/-- `json.dumps` with `indent=4` (line 102): item separator `","`, key
separator `": "`, each element on its own indented line.  Key sorting is
applied beforehand by `sortKeysRec`. -/
def dumpsPretty : Nat → Json → String
  | _, .str s => jsonQuote s
  | _, .bool b => if b then "true" else "false"
  | _, .arr [] => "[]"
  | level, .arr (j :: rest) =>
    "[\n" ++ String.intercalate ",\n" (dumpsPrettyList (level + 1) (j :: rest)) ++
      "\n" ++ indentStr level ++ "]"
  | _, .obj [] => "\x7b\x7d"
  | level, .obj (f :: rest) =>
    "\x7b\n" ++ String.intercalate ",\n" (dumpsPrettyFields (level + 1) (f :: rest)) ++
      "\n" ++ indentStr level ++ "\x7d"

/-- Indented renderings of the elements of a JSON array. -/
def dumpsPrettyList : Nat → List Json → List String
  | _, [] => []
  | level, j :: rest => (indentStr level ++ dumpsPretty level j) :: dumpsPrettyList level rest

/-- Indented renderings of the members of a JSON object. -/
def dumpsPrettyFields : Nat → List (String × Json) → List String
  | _, [] => []
  | level, (k, v) :: rest =>
    (indentStr level ++ jsonQuote k ++ ": " ++ dumpsPretty level v) ::
      dumpsPrettyFields level rest

end

/-- `ApiGatewayAuditor.print_audits` (lines 100-110), with the printed
output materialized as the returned list of lines: the `json-pretty`
branch, then the `json` branch, and a fall-through branch that renders CSV
rows for **any** other format value. -/
def print_audits (format : String) (api_audits : List ApiAudit) :
    Except KeyErr (List String) :=
  if format = "json-pretty" then
    .ok [dumpsPretty 0 (sortKeysRec (reportToJson api_audits))]
  else if format = "json" then
    .ok [dumps (reportToJson api_audits)]
  else
    csvAudits api_audits

/-- The `choices` list of the `--format` CLI argument (line 28). -/
def formatChoices : List String :=
  ["json", "json-pretty", "csv"]

/-- Whether `argparse` accepts a `--format` value: membership in the
`choices` list; any other value is rejected before the auditor is even
constructed. -/
def cliAcceptsFormat (f : String) : Bool :=
  decide (f ∈ formatChoices)

/-! ### Specification-side definitions

These follow the wording of the specification, to be compared with the
definitions embedded from the source. -/

/-- Spec wording of the tabular contract (§4.3): for each audit record,
for each resource of its `resources` field, for each method, one
`name,apiId,endpointTypes,path,httpMethod,authorizationType,apiKeyRequired`
row, in report order. -/
def tabularLines (report : List ApiAudit) : List String :=
  report.flatMap fun api =>
    (api.resources.getD []).flatMap fun resource =>
      resource.methods.map (csvLine api resource)

/-- A raw method-mapping entry carrying all three attributes the parser
may read. -/
def wfEntry (e : String × RawMethodDetail) : Bool :=
  e.2.httpMethod.isSome && e.2.authorizationType.isSome && e.2.apiKeyRequired.isSome

/-- The `MethodSecurity` a fully-attributed raw entry parses to. -/
def entrySec (e : String × RawMethodDetail) : MethodSecurity :=
  ⟨e.2.httpMethod.getD "", e.2.authorizationType.getD "", e.2.apiKeyRequired.getD false⟩

/-- Whether the parser keeps a raw entry, phrased on the entry itself. -/
def keepEntry (methodsFilter : Option (List String)) (e : String × RawMethodDetail) : Bool :=
  includeMethod methodsFilter (e.2.httpMethod.getD "")

/-- Key lookup in a JSON object's member list (first occurrence). -/
def jLookup (fields : List (String × Json)) (k : String) : Option Json :=
  (fields.find? fun p => p.1 == k).map Prod.snd

/-- Effectful map over a list in the `Option` monad. -/
def mapMO {α β : Type} (f : α → Option β) : List α → Option (List β)
  | [] => some []
  | a :: rest =>
    match f a with
    | none => none
    | some b =>
      match mapMO f rest with
      | none => none
      | some bs => some (b :: bs)

/-- A JSON string, decoded. -/
def decodeStr : Json → Option String
  | .str s => some s
  | _ => none

/-- Modelled from the spec: the parse-back direction of the
structured-compact round trip (§8).  No code of the repository parses the
rendering back (`json.loads` lives in the standard library), so the
decoder follows the spec's words: it reconstructs each entity from the
encoded value by key lookup only — same fields, same values,
field-order-insensitive. -/
def decodeMethod : Json → Option MethodSecurity
  | .obj fs =>
    match jLookup fs "method", jLookup fs "authorization_type",
        jLookup fs "api_key_required" with
    | some (.str m), some (.str a), some (.bool k) => some ⟨m, a, k⟩
    | _, _, _ => none
  | _ => none

/-- Modelled from the spec: decode one resource of the structured
rendering (see `decodeMethod`). -/
def decodeResource : Json → Option Resource
  | .obj fs =>
    match jLookup fs "path", jLookup fs "methods" with
    | some (.str p), some (.arr ms) =>
      (mapMO decodeMethod ms).map fun methods => ⟨p, methods⟩
    | _, _ => none
  | _ => none

/-- Modelled from the spec: decode one audit record of the structured
rendering; an absent `resources` key decodes to the absent field (see
`decodeMethod`). -/
def decodeApiAudit : Json → Option ApiAudit
  | .obj fs =>
    match jLookup fs "api_id", jLookup fs "name", jLookup fs "endpoint_type" with
    | some (.str i), some (.str n), some (.arr ets) =>
      match mapMO decodeStr ets with
      | none => none
      | some endpointTypes =>
        match jLookup fs "resources" with
        | none => some ⟨i, n, endpointTypes, none⟩
        | some (.arr rs) =>
          (mapMO decodeResource rs).map fun resources => ⟨i, n, endpointTypes, some resources⟩
        | some _ => none
    | _, _, _ => none
  | _ => none

/-- Modelled from the spec: decode a whole report of the structured
rendering (see `decodeMethod`). -/
def decodeReport : Json → Option (List ApiAudit)
  | .arr l => mapMO decodeApiAudit l
  | _ => none

/-! ### Concrete inputs used by witnesses and counterexamples -/

/-- Scenario A `GET` method detail. -/
def mGET : RawMethodDetail := ⟨some "GET", some "NONE", some false⟩

/-- Scenario A `POST` method detail. -/
def mPOST : RawMethodDetail := ⟨some "POST", some "AWS_IAM", some true⟩

/-- Scenario A raw `/items` resource, methods in `GET`, `POST` insertion
order. -/
def itemsRaw : RawResource :=
  ⟨"/items", some [("GET", mGET), ("POST", mPOST)]⟩

/-- Scenario A API summary. -/
def shopApi : ApiSummary := ⟨"a1", "Shop", ["REGIONAL"]⟩

/-- Scenario A collaborator snapshot: one API, one resource. -/
def scenarioAClient : GatewayClient :=
  ⟨[shopApi], fun _ => [itemsRaw]⟩

/-- The audit report of Scenario A. -/
def scenarioAReport : List ApiAudit :=
  [⟨"a1", "Shop", ["REGIONAL"],
    some [⟨"/items", [⟨"GET", "NONE", false⟩, ⟨"POST", "AWS_IAM", true⟩]⟩]⟩]

/-- A raw entry whose mapping key and attributes are present but whose
`httpMethod` value is missing. -/
def noVerbRaw : RawResource :=
  ⟨"/broken", some [("GET", ⟨none, some "NONE", some false⟩)]⟩

/-- A raw `DELETE` entry missing its `authorizationType` attribute. -/
def mBadDelete : RawMethodDetail := ⟨some "DELETE", none, some true⟩

/-- A raw resource containing a malformed (attribute-missing) entry. -/
def badRaw : RawResource := ⟨"/admin", some [("DELETE", mBadDelete)]⟩

/-- A collaborator snapshot whose single API exposes the malformed
resource. -/
def badClient : GatewayClient :=
  ⟨[shopApi], fun _ => [badRaw]⟩

/-- A raw resource mixing a malformed excluded entry with a well-formed
included one (attributes of the excluded `GET` entry are absent). -/
def mixedRaw : RawResource :=
  ⟨"/mixed", some [("GET", ⟨some "GET", none, none⟩), ("POST", mPOST)]⟩

/-- A raw resource whose mapping holds a single well-formed `GET` entry. -/
def getOnlyRaw : RawResource :=
  ⟨"/items", some [("GET", mGET)]⟩

/-- An audit record with the `resources` field absent. -/
def bareAudit : ApiAudit := ⟨"a2", "Empty", ["EDGE"], none⟩

/-- A report whose first record carries resources and whose second does
not. -/
def mixedReport : List ApiAudit :=
  scenarioAReport ++ [bareAudit]

/-- The first Scenario A tabular row,
`Shop,a1,['REGIONAL'],/items,GET,NONE,False`. -/
def rowGET : String :=
  "Shop,a1,[" ++ String.singleton squote ++ "REGIONAL" ++ String.singleton squote ++
    "],/items,GET,NONE,False"

/-- The second Scenario A tabular row,
`Shop,a1,['REGIONAL'],/items,POST,AWS_IAM,True`. -/
def rowPOST : String :=
  "Shop,a1,[" ++ String.singleton squote ++ "REGIONAL" ++ String.singleton squote ++
    "],/items,POST,AWS_IAM,True"

/-! ### Helper lemmas -/

theorem mapME_ok_mem {α β ε : Type} (f : α → Except ε β) :
    ∀ (l : List α) (v : List β), mapME f l = .ok v → ∀ a ∈ l, ∃ b, f a = .ok b := by
  intro l
  induction l with
  | nil => intro v _ a ha; cases ha
  | cons x rest ih =>
    intro v h a ha
    rcases List.mem_cons.mp ha with rfl | hmem
    · cases hx : f a with
      | error e => rw [mapME, hx] at h; cases h
      | ok b => exact ⟨b, rfl⟩
    · cases hx : f x with
      | error e => rw [mapME, hx] at h; cases h
      | ok b =>
        cases hr : mapME f rest with
        | error e => rw [mapME, hx, hr] at h; cases h
        | ok bs => exact ih bs hr a hmem

theorem mapME_ok_mem_out {α β ε : Type} (f : α → Except ε β) :
    ∀ (l : List α) (v : List β), mapME f l = .ok v → ∀ b ∈ v, ∃ a ∈ l, f a = .ok b := by
  intro l
  induction l with
  | nil =>
    intro v h b hb
    rw [mapME] at h
    cases h
    cases hb
  | cons x rest ih =>
    intro v h b hb
    rw [mapME] at h
    cases hx : f x with
    | error e => rw [hx] at h; cases h
    | ok c =>
      rw [hx] at h
      cases hr : mapME f rest with
      | error e => rw [hr] at h; cases h
      | ok bs =>
        rw [hr] at h
        cases h
        rcases List.mem_cons.mp hb with rfl | hmem
        · exact ⟨x, List.mem_cons_self _ _, hx⟩
        · obtain ⟨a, ha, hfa⟩ := ih bs hr b hmem
          exact ⟨a, List.mem_cons_of_mem _ ha, hfa⟩

theorem mapME_ok_get {α β ε : Type} (f : α → Except ε β) :
    ∀ (l : List α) (v : List β), mapME f l = .ok v →
      v.length = l.length ∧
      ∀ (i : Nat) (a : α), l[i]? = some a → ∃ b, f a = .ok b ∧ v[i]? = some b := by
  intro l
  induction l with
  | nil =>
    intro v h
    rw [mapME] at h
    cases h
    exact ⟨rfl, by intro i a ha; simp at ha⟩
  | cons x rest ih =>
    intro v h
    rw [mapME] at h
    cases hx : f x with
    | error e => rw [hx] at h; cases h
    | ok b =>
      rw [hx] at h
      cases hr : mapME f rest with
      | error e => rw [hr] at h; cases h
      | ok bs =>
        rw [hr] at h
        cases h
        obtain ⟨hlen, hget⟩ := ih bs hr
        refine ⟨by simp [hlen], ?_⟩
        intro i a ha
        cases i with
        | zero =>
          simp only [List.getElem?_cons_zero, Option.some.injEq] at ha
          exact ⟨b, by rw [← ha]; exact hx, by simp⟩
        | succ j =>
          simp only [List.getElem?_cons_succ] at ha ⊢
          exact hget j a ha

theorem collectResources_eq (F : Option (List String)) :
    ∀ raws, collectResources F raws =
      (mapME (parse_resource F) raws).map (List.filterMap id) := by
  intro raws
  induction raws with
  | nil => rfl
  | cons r rest ih =>
    cases hp : parse_resource F r with
    | error e => simp [collectResources, mapME, hp, Except.map]
    | ok o =>
      cases hm : mapME (parse_resource F) rest with
      | error e =>
        rw [hm] at ih
        simp [collectResources, mapME, hp, hm, ih, Except.map]
      | ok parsed =>
        rw [hm] at ih
        cases o with
        | none => simp [collectResources, mapME, hp, hm, ih, Except.map, List.filterMap_cons]
        | some rd => simp [collectResources, mapME, hp, hm, ih, Except.map, List.filterMap_cons]

theorem auditOne_eq (F : Option (List String)) (client : GatewayClient) (item : ApiSummary) :
    auditOne F client item =
      (collectResources F (client.listResources item.id)).map
        (fun survived =>
          ⟨item.id, item.name, item.endpointTypes,
           if survived.isEmpty then none else some survived⟩) := by
  cases h : client.listResources item.id with
  | nil => simp [auditOne, h, collectResources, Except.map]
  | cons r rest =>
    cases hc : collectResources F (r :: rest) with
    | error e => simp [auditOne, h, hc, Except.map]
    | ok survived => simp [auditOne, h, hc, Except.map]

theorem parseMethods_filter (F : Option (List String)) :
    ∀ entries, (∀ e ∈ entries, wfEntry e = true) →
      parseMethods F entries = .ok ((entries.filter (keepEntry F)).map entrySec) := by
  intro entries
  induction entries with
  | nil => intro _; rfl
  | cons e rest ih =>
    intro hwf
    obtain ⟨k, d⟩ := e
    have hw := hwf (k, d) (List.mem_cons_self _ _)
    simp only [wfEntry, Bool.and_eq_true] at hw
    obtain ⟨⟨h1, h2⟩, h3⟩ := hw
    obtain ⟨m, hm⟩ := Option.isSome_iff_exists.mp h1
    obtain ⟨a, ha⟩ := Option.isSome_iff_exists.mp h2
    obtain ⟨kr, hkr⟩ := Option.isSome_iff_exists.mp h3
    have hrest := ih fun x hx => hwf x (List.mem_cons_of_mem _ hx)
    have hkeep : keepEntry F (k, d) = includeMethod F m := by
      simp [keepEntry, hm]
    rw [List.filter_cons, hkeep]
    cases hinc : includeMethod F m with
    | false =>
      simp only [parseMethods, hm, ha, hkr, hinc, Bool.false_eq_true, if_false]
      exact hrest
    | true =>
      simp only [parseMethods, hm, ha, hkr, hinc, if_true, hrest]
      simp [entrySec, hm, ha, hkr]

theorem parseMethods_excluded (F : Option (List String)) :
    ∀ entries,
      (∀ e ∈ entries, ∃ m, e.2.httpMethod = some m ∧ includeMethod F m = false) →
      parseMethods F entries = .ok [] := by
  intro entries
  induction entries with
  | nil => intro _; rfl
  | cons e rest ih =>
    intro hex
    obtain ⟨k, d⟩ := e
    obtain ⟨m, hm, hinc⟩ := hex (k, d) (List.mem_cons_self _ _)
    have hm' : d.httpMethod = some m := hm
    simp only [parseMethods, hm', hinc, Bool.false_eq_true, if_false]
    exact ih fun x hx => hex x (List.mem_cons_of_mem _ hx)

theorem parseMethods_total (F : Option (List String)) :
    ∀ entries, (∀ e ∈ entries, e.2.httpMethod.isSome) →
      (∀ e ∈ entries, ∀ m, e.2.httpMethod = some m → includeMethod F m = true →
        e.2.authorizationType.isSome ∧ e.2.apiKeyRequired.isSome) →
      ∃ ms, parseMethods F entries = .ok ms := by
  intro entries
  induction entries with
  | nil => intro _ _; exact ⟨[], rfl⟩
  | cons e rest ih =>
    intro hverb hsec
    obtain ⟨k, d⟩ := e
    obtain ⟨m, hm⟩ := Option.isSome_iff_exists.mp (hverb (k, d) (List.mem_cons_self _ _))
    obtain ⟨ms, hms⟩ := ih (fun x hx => hverb x (List.mem_cons_of_mem _ hx))
      (fun x hx => hsec x (List.mem_cons_of_mem _ hx))
    have hm' : d.httpMethod = some m := hm
    cases hinc : includeMethod F m with
    | false =>
      refine ⟨ms, ?_⟩
      simp only [parseMethods, hm', hinc, Bool.false_eq_true, if_false]
      exact hms
    | true =>
      obtain ⟨h2, h3⟩ := hsec (k, d) (List.mem_cons_self _ _) m hm hinc
      obtain ⟨a, ha⟩ := Option.isSome_iff_exists.mp h2
      obtain ⟨kr, hkr⟩ := Option.isSome_iff_exists.mp h3
      have ha' : d.authorizationType = some a := ha
      have hkr' : d.apiKeyRequired = some kr := hkr
      refine ⟨⟨m, a, kr⟩ :: ms, ?_⟩
      simp only [parseMethods, hm', ha', hkr', hinc, if_true, hms]

theorem parseMethods_malformed :
    ∀ entries,
      (∃ e ∈ entries, e.2.authorizationType = none ∨ e.2.apiKeyRequired = none) →
      ∃ err, parseMethods none entries = .error err := by
  intro entries
  induction entries with
  | nil => intro h; obtain ⟨e, he, _⟩ := h; cases he
  | cons e rest ih =>
    intro hex
    obtain ⟨k, d⟩ := e
    cases hm : d.httpMethod with
    | none => exact ⟨.httpMethod, by simp only [parseMethods, hm]⟩
    | some m =>
      cases ha : d.authorizationType with
      | none =>
        exact ⟨.authorizationType, by simp only [parseMethods, hm, ha, includeMethod, if_true]⟩
      | some a =>
        cases hkr : d.apiKeyRequired with
        | none =>
          exact ⟨.apiKeyRequired, by simp only [parseMethods, hm, ha, hkr, includeMethod, if_true]⟩
        | some kr =>
          obtain ⟨x, hx, hbad⟩ := hex
          rcases List.mem_cons.mp hx with rfl | hmem
          · rcases hbad with hbad | hbad
            · rw [ha] at hbad; cases hbad
            · rw [hkr] at hbad; cases hbad
          · obtain ⟨err, herr⟩ := ih ⟨x, hmem, hbad⟩
            refine ⟨err, ?_⟩
            simp only [parseMethods, hm, ha, hkr, includeMethod, if_true, herr]

theorem parse_resource_some_nonempty (F : Option (List String)) (R : RawResource)
    (r : Resource) : parse_resource F R = .ok (some r) → r.methods ≠ [] := by
  intro h
  cases hres : R.resourceMethods with
  | none => simp only [parse_resource, hres] at h; simp at h
  | some entries =>
    simp only [parse_resource, hres] at h
    cases hp : parseMethods F entries with
    | error e => simp only [hp] at h; simp at h
    | ok ms =>
      simp only [hp] at h
      cases hemp : ms.isEmpty with
      | true => simp only [hemp, if_true] at h; simp at h
      | false =>
        simp only [hemp, Bool.false_eq_true, if_false, Except.ok.injEq,
          Option.some.injEq] at h
        rw [← h]
        simpa using hemp

theorem rowsOf_eq (api : ApiAudit) (resources : List Resource) :
    (resources.flatMap fun resource =>
      if resource.methods.isEmpty then []
      else resource.methods.map (csvLine api resource)) =
    resources.flatMap fun resource => resource.methods.map (csvLine api resource) := by
  induction resources with
  | nil => rfl
  | cons r rest ih =>
    simp only [List.flatMap_cons, ih]
    cases hm : r.methods <;> simp [hm]

theorem csvAudits_error :
    ∀ report, (∃ a ∈ report, a.resources = none) →
      csvAudits report = .error .resources := by
  intro report
  induction report with
  | nil => rintro ⟨a, ha, _⟩; cases ha
  | cons api rest ih =>
    rintro ⟨a, ha, hnone⟩
    rcases List.mem_cons.mp ha with rfl | hmem
    · simp only [csvAudits, hnone]
    · cases hres : api.resources with
      | none => simp only [csvAudits, hres]
      | some rs =>
        have hrest := ih ⟨a, hmem, hnone⟩
        simp only [csvAudits, hres, hrest]

theorem csvAudits_tabular :
    ∀ report, (∀ a ∈ report, a.resources.isSome) →
      csvAudits report = .ok (tabularLines report) := by
  intro report
  induction report with
  | nil => intro _; rfl
  | cons api rest ih =>
    intro hall
    obtain ⟨rs, hrs⟩ := Option.isSome_iff_exists.mp (hall api (List.mem_cons_self _ _))
    have hrest := ih fun a ha => hall a (List.mem_cons_of_mem _ ha)
    simp only [csvAudits, hrs, hrest, Except.ok.injEq]
    rw [rowsOf_eq]
    simp [tabularLines, hrs]

theorem print_audits_other (mode : String) (report : List ApiAudit)
    (h1 : mode ≠ "json-pretty") (h2 : mode ≠ "json") :
    print_audits mode report = csvAudits report := by
  simp only [print_audits, if_neg h1, if_neg h2]

theorem jLookup_cons_pos {k k2 : String} (h : (k == k2) = true) (v : Json)
    (rest : List (String × Json)) : jLookup ((k, v) :: rest) k2 = some v := by
  unfold jLookup
  rw [List.find?_cons_of_pos _ (by simpa using h)]
  rfl

theorem jLookup_cons_neg {k k2 : String} (h : (k == k2) = false) (v : Json)
    (rest : List (String × Json)) : jLookup ((k, v) :: rest) k2 = jLookup rest k2 := by
  unfold jLookup
  rw [List.find?_cons_of_neg _ (by simpa using h)]

theorem mapMO_map {α β : Type} (f : β → Option α) (g : α → β) :
    ∀ l, (∀ a ∈ l, f (g a) = some a) → mapMO f (l.map g) = some l := by
  intro l
  induction l with
  | nil => intro _; rfl
  | cons a rest ih =>
    intro h
    simp only [List.map_cons, mapMO, h a (List.mem_cons_self _ _),
      ih fun x hx => h x (List.mem_cons_of_mem _ hx)]

theorem decodeMethod_enc (m : MethodSecurity) :
    decodeMethod (methodToJson m) = some m := rfl

theorem decodeResource_enc (r : Resource) :
    decodeResource (resourceToJson r) = some r := by
  obtain ⟨p, ms⟩ := r
  have h : mapMO decodeMethod (ms.map methodToJson) = some ms :=
    mapMO_map _ _ ms fun a _ => decodeMethod_enc a
  simp [decodeResource, resourceToJson, jLookup, h]

theorem decodeApiAudit_enc (a : ApiAudit) :
    decodeApiAudit (apiAuditToJson a) = some a := by
  obtain ⟨i, n, ets, ors⟩ := a
  have hets : mapMO decodeStr (ets.map Json.str) = some ets :=
    mapMO_map _ _ ets fun s _ => rfl
  cases ors with
  | none => simp [decodeApiAudit, apiAuditToJson, apiAuditFields, jLookup, hets]
  | some rs =>
    have hrs : mapMO decodeResource (rs.map resourceToJson) = some rs :=
      mapMO_map _ _ rs fun r _ => decodeResource_enc r
    simp [decodeApiAudit, apiAuditToJson, apiAuditFields, jLookup, hets, hrs]

theorem decodeReport_enc (report : List ApiAudit) :
    decodeReport (reportToJson report) = some report := by
  have h : mapMO decodeApiAudit (report.map apiAuditToJson) = some report :=
    mapMO_map _ _ report fun a _ => decodeApiAudit_enc a
  simp [decodeReport, reportToJson, h]

theorem decodeApiAudit_fields_rev (a : ApiAudit) :
    decodeApiAudit (.obj (apiAuditFields a).reverse) = some a := by
  obtain ⟨i, n, ets, ors⟩ := a
  have hets : mapMO decodeStr (ets.map Json.str) = some ets :=
    mapMO_map _ _ ets fun s _ => rfl
  cases ors with
  | none => simp [decodeApiAudit, apiAuditFields, jLookup, hets]
  | some rs =>
    have hrs : mapMO decodeResource (rs.map resourceToJson) = some rs :=
      mapMO_map _ _ rs fun r _ => decodeResource_enc r
    simp [decodeApiAudit, apiAuditFields, jLookup, hets, hrs]

/-! ### Claims -/

/-- C1: for every API returned by the collaborator, `audit` emits exactly
one `ApiAudit` record, in the collaborator's order, and that record
carries a `resources` field iff at least one `Resource` survived
parsing/filtering for that API; an API with zero qualifying resources is
still emitted, with the field absent — never present as an empty list. -/
theorem audit_one_record_per_api (client : GatewayClient) (F : Option (List String))
    (report : List ApiAudit) (h : audit client F = .ok report) :
    report.length = client.listApis.length ∧
    (∀ (i : Nat) (item : ApiSummary), client.listApis[i]? = some item →
      ∃ survived, collectResources F (client.listResources item.id) = .ok survived ∧
        report[i]? = some ⟨item.id, item.name, item.endpointTypes,
          if survived.isEmpty then none else some survived⟩) ∧
    (∀ a ∈ report, ∀ rs, a.resources = some rs → rs ≠ []) := by
  obtain ⟨hlen, hget⟩ := mapME_ok_get _ _ _ h
  refine ⟨hlen, ?_, ?_⟩
  · intro i item hi
    obtain ⟨b, hb, hbi⟩ := hget i item hi
    rw [auditOne_eq] at hb
    cases hc : collectResources F (client.listResources item.id) with
    | error e => rw [hc] at hb; simp [Except.map] at hb
    | ok survived =>
      rw [hc] at hb
      simp only [Except.map, Except.ok.injEq] at hb
      exact ⟨survived, rfl, by rw [hbi, ← hb]⟩
  · intro a ha rs hrs
    obtain ⟨item, _, hb⟩ := mapME_ok_mem_out _ _ _ h a ha
    rw [auditOne_eq] at hb
    cases hc : collectResources F (client.listResources item.id) with
    | error e => rw [hc] at hb; simp [Except.map] at hb
    | ok survived =>
      rw [hc] at hb
      simp only [Except.map, Except.ok.injEq] at hb
      rw [← hb] at hrs
      cases hemp : survived.isEmpty with
      | true => simp [hemp] at hrs
      | false =>
        simp only [hemp, Bool.false_eq_true, if_false, Option.some.injEq] at hrs
        rw [← hrs]
        simpa using hemp

/-- C1 witness: the Scenario A snapshot instantiates the invariant. -/
theorem audit_one_record_per_api_witness :
    scenarioAReport.length = scenarioAClient.listApis.length ∧
    (∀ (i : Nat) (item : ApiSummary), scenarioAClient.listApis[i]? = some item →
      ∃ survived, collectResources none (scenarioAClient.listResources item.id) = .ok survived ∧
        scenarioAReport[i]? = some ⟨item.id, item.name, item.endpointTypes,
          if survived.isEmpty then none else some survived⟩) ∧
    (∀ a ∈ scenarioAReport, ∀ rs, a.resources = some rs → rs ≠ []) :=
  audit_one_record_per_api scenarioAClient none scenarioAReport rfl

/-- C2 counterexample: a raw resource whose single mapping entry lacks the
`httpMethod` value satisfies the claim's hypothesis (no method's verb is a
member of the non-empty filter), yet `parse_resource` raises a lookup
failure instead of yielding absent — line 90 reads `value['httpMethod']`
before the filter check. -/
theorem parse_absent_counterexample :
    (∀ e ∈ entriesOf noVerbRaw, ∀ m ∈ ["POST"], e.2.httpMethod ≠ some m) ∧
    parse_resource (some ["POST"]) noVerbRaw = .error .httpMethod :=
  ⟨by decide, rfl⟩

/-- C2 amended: provided every mapping entry carries an `httpMethod`
value, a resource with no method mapping, or none of whose verbs is a
member of the non-empty filter, parses to absent; and no `Resource` with
an empty methods list is ever produced. -/
theorem parse_absent_amended :
    (∀ (F : Option (List String)) (R : RawResource),
      (∀ e ∈ entriesOf R, e.2.httpMethod.isSome) →
      (R.resourceMethods = none ∨
        ∃ l, F = some l ∧ l ≠ [] ∧ ∀ e ∈ entriesOf R, ∀ m ∈ l, e.2.httpMethod ≠ some m) →
      parse_resource F R = .ok none) ∧
    ∀ (F : Option (List String)) (R : RawResource) (r : Resource),
      parse_resource F R = .ok (some r) → r.methods ≠ [] := by
  constructor
  · intro F R hwf hcond
    rcases hcond with hnone | ⟨l, rfl, hne, hker⟩
    · simp [parse_resource, hnone]
    · cases hres : R.resourceMethods with
      | none => simp [parse_resource, hres]
      | some entries =>
        have hent : entriesOf R = entries := by simp [entriesOf, hres]
        have hpm : parseMethods (some l) entries = .ok [] := by
          apply parseMethods_excluded
          intro e he
          obtain ⟨m, hm⟩ := Option.isSome_iff_exists.mp (hwf e (hent ▸ he))
          refine ⟨m, hm, ?_⟩
          have hnl : m ∉ l := fun hmem => hker e (hent ▸ he) m hmem hm
          simp [includeMethod, hnl]
        simp [parse_resource, hres, hpm]
  · exact parse_resource_some_nonempty

/-- C2 amended witness: a well-formed `GET`-only resource under filter
`{POST}` parses to absent. -/
theorem parse_absent_amended_witness :
    parse_resource (some ["POST"]) getOnlyRaw = .ok none :=
  parse_absent_amended.1 (some ["POST"]) getOnlyRaw (by decide)
    (Or.inr ⟨["POST"], rfl, by decide, by decide⟩)

/-- C3 counterexample: an empty but set filter excludes every method
(line 91 tests `method in self.methods`, and nothing is a member of the
empty list), so the same well-formed resource that parses to a `GET`
record with the filter unset parses to absent with the filter `{}`. -/
theorem empty_filter_counterexample :
    parse_resource (some []) getOnlyRaw = .ok none ∧
    parse_resource none getOnlyRaw = .ok (some ⟨"/items", [⟨"GET", "NONE", false⟩]⟩) :=
  ⟨rfl, rfl⟩

/-- C3 amended: a method entry is included iff the filter is unset
(`None`) or the entry's `httpMethod` is an exact, case-sensitive member of
the filter, in mapping order; an empty-but-set filter excludes all
methods, and no case normalization is applied to verbs. -/
theorem method_filter_membership :
    (∀ (F : Option (List String)) entries, (∀ e ∈ entries, wfEntry e = true) →
      parseMethods F entries = .ok ((entries.filter (keepEntry F)).map entrySec)) ∧
    (∀ m, includeMethod none m = true) ∧
    (∀ l m, includeMethod (some l) m = true ↔ m ∈ l) ∧
    includeMethod (some ["get"]) "GET" = false ∧
    includeMethod (some ["GET"]) "GET" = true := by
  refine ⟨parseMethods_filter, fun m => rfl, ?_, by decide, by decide⟩
  intro l m
  simp [includeMethod]

/-- C3 amended witness: the Scenario A entries under filter `{POST}`. -/
theorem method_filter_membership_witness :
    parseMethods (some ["POST"]) (entriesOf itemsRaw) =
      .ok (((entriesOf itemsRaw).filter (keepEntry (some ["POST"]))).map entrySec) :=
  method_filter_membership.1 (some ["POST"]) (entriesOf itemsRaw) (by decide)

/-- C4: in tabular (`csv`) mode, rendering a report containing any record
whose `resources` field is absent is a fatal lookup failure — the render
aborts with no output value for that report — rather than skipping that
API (line 107 looks up `api['resources']` unconditionally). -/
theorem tabular_missing_resources_fatal (report : List ApiAudit)
    (h : ∃ a ∈ report, a.resources = none) :
    print_audits "csv" report = .error .resources := by
  rw [print_audits_other "csv" report (by decide) (by decide)]
  exact csvAudits_error report h

/-- C4 witness: a report whose second record lacks resources. -/
theorem tabular_missing_resources_fatal_witness :
    print_audits "csv" mixedReport = .error .resources :=
  tabular_missing_resources_fatal mixedReport ⟨bareAudit, by decide, rfl⟩

/-- C5: in tabular mode, under the present-resources precondition, the
output is exactly one row per `MethodSecurity` in report order, of the
comma-separated form
`name,apiId,endpointTypes,path,httpMethod,authorizationType,apiKeyRequired`
with no header and no escaping; on the Scenario A input the two rows are
`Shop,a1,['REGIONAL'],/items,GET,NONE,False` and
`Shop,a1,['REGIONAL'],/items,POST,AWS_IAM,True`. -/
theorem tabular_rows_exact :
    (∀ report, (∀ a ∈ report, a.resources.isSome) →
      print_audits "csv" report = .ok (tabularLines report)) ∧
    (audit scenarioAClient none >>= print_audits "csv") = .ok [rowGET, rowPOST] := by
  constructor
  · intro report h
    rw [print_audits_other "csv" report (by decide) (by decide)]
    exact csvAudits_tabular report h
  · rfl

/-- C5 witness: the Scenario A report satisfies the precondition and
renders to its tabular rows. -/
theorem tabular_rows_exact_witness :
    print_audits "csv" scenarioAReport = .ok (tabularLines scenarioAReport) :=
  tabular_rows_exact.1 scenarioAReport (by decide)

/-- C6 counterexample: an unrecognized mode value (`"xml"`) does not yield
an unsupported-configuration failure in the renderer — the fall-through
`else` of line 105 treats every non-json format as tabular and produces
output. -/
theorem unknown_mode_counterexample :
    print_audits "xml" scenarioAReport = .ok [rowGET, rowPOST] := rfl

/-- C6 amended: the renderer compares the mode only against
`"json-pretty"` and `"json"`; every other mode value, `"csv"` included,
falls through to the tabular branch and produces tabular output.
Unrecognized mode values are rejected only by the CLI argument parser,
whose accepted choices are exactly `json`, `json-pretty`, `csv`
(line 28), before the auditor runs. -/
theorem render_mode_dispatch :
    (∀ (mode : String) (report : List ApiAudit),
      mode ≠ "json-pretty" → mode ≠ "json" →
      print_audits mode report = csvAudits report) ∧
    ∀ mode : String, cliAcceptsFormat mode = true ↔
      (mode = "json" ∨ mode = "json-pretty" ∨ mode = "csv") := by
  refine ⟨print_audits_other, ?_⟩
  intro mode
  simp [cliAcceptsFormat, formatChoices]

/-- C6 amended witness: mode `"xml"` takes the tabular branch. -/
theorem render_mode_dispatch_witness :
    print_audits "xml" mixedReport = csvAudits mixedReport :=
  render_mode_dispatch.1 "xml" mixedReport (by decide) (by decide)

/-- C7: a raw resource with a method entry lacking `authorizationType` or
`apiKeyRequired` makes parsing (with the default unset filter, under
which every entry is examined) raise a fatal lookup failure, and the whole
audit run aborts with no report — the malformed entry is neither skipped
nor given a default value. -/
theorem malformed_entry_fatal (client : GatewayClient) (item : ApiSummary)
    (R : RawResource) (hitem : item ∈ client.listApis)
    (hR : R ∈ client.listResources item.id)
    (hmal : ∃ e ∈ entriesOf R, e.2.authorizationType = none ∨ e.2.apiKeyRequired = none) :
    (∃ err, parse_resource none R = .error err) ∧
    ∃ err, audit client none = .error err := by
  have hparse : ∃ err, parse_resource none R = .error err := by
    cases hres : R.resourceMethods with
    | none =>
      obtain ⟨e, he, _⟩ := hmal
      rw [entriesOf, hres] at he
      cases he
    | some entries =>
      have hent : entriesOf R = entries := by simp [entriesOf, hres]
      obtain ⟨err, herr⟩ := parseMethods_malformed entries (hent ▸ hmal)
      exact ⟨err, by simp [parse_resource, hres, herr]⟩
  refine ⟨hparse, ?_⟩
  cases haudit : audit client none with
  | error e => exact ⟨e, rfl⟩
  | ok report =>
    exfalso
    obtain ⟨b, hb⟩ := mapME_ok_mem _ _ _ haudit item hitem
    rw [auditOne_eq, collectResources_eq] at hb
    cases hm : mapME (parse_resource none) (client.listResources item.id) with
    | error e => rw [hm] at hb; simp [Except.map] at hb
    | ok parsed =>
      obtain ⟨o, ho⟩ := mapME_ok_mem _ _ _ hm R hR
      obtain ⟨err, herr⟩ := hparse
      rw [herr] at ho
      cases ho

/-- C7 witness: a snapshot whose only API exposes a resource with a
`DELETE` entry missing `authorizationType`. -/
theorem malformed_entry_fatal_witness :
    (∃ err, parse_resource none badRaw = .error err) ∧
    ∃ err, audit badClient none = .error err :=
  malformed_entry_fatal badClient shopApi badRaw (by decide) (by decide) (by decide)

/-- C8: the report keeps the collaborator's API order (one record per API,
by index), each record's resources are the order-preserving sub-sequence
(`filterMap`) of the parses of the collaborator's raw resources, and each
resource's methods are the order-preserving filter of the raw method
mapping's entries — no sorting, no deduplication, no cross-API
aggregation. -/
theorem audit_order_preserved (client : GatewayClient) (F : Option (List String))
    (report : List ApiAudit) (h : audit client F = .ok report) :
    report.length = client.listApis.length ∧
    (∀ (i : Nat) (item : ApiSummary), client.listApis[i]? = some item →
      ∃ parsed, mapME (parse_resource F) (client.listResources item.id) = .ok parsed ∧
        report[i]? = some ⟨item.id, item.name, item.endpointTypes,
          if (parsed.filterMap id).isEmpty then none
          else some (parsed.filterMap id)⟩) ∧
    ∀ entries, (∀ e ∈ entries, wfEntry e = true) →
      parseMethods F entries = .ok ((entries.filter (keepEntry F)).map entrySec) := by
  obtain ⟨hlen, hget⟩ := mapME_ok_get _ _ _ h
  refine ⟨hlen, ?_, parseMethods_filter F⟩
  intro i item hi
  obtain ⟨b, hb, hbi⟩ := hget i item hi
  rw [auditOne_eq, collectResources_eq] at hb
  cases hm : mapME (parse_resource F) (client.listResources item.id) with
  | error e => rw [hm] at hb; simp [Except.map] at hb
  | ok parsed =>
    rw [hm] at hb
    simp only [Except.map, Except.ok.injEq] at hb
    exact ⟨parsed, rfl, by rw [hbi, ← hb]⟩

/-- C8 witness: the Scenario A snapshot instantiates the order
characterization. -/
theorem audit_order_preserved_witness :
    scenarioAReport.length = scenarioAClient.listApis.length ∧
    (∀ (i : Nat) (item : ApiSummary), scenarioAClient.listApis[i]? = some item →
      ∃ parsed, mapME (parse_resource none) (scenarioAClient.listResources item.id) = .ok parsed ∧
        scenarioAReport[i]? = some ⟨item.id, item.name, item.endpointTypes,
          if (parsed.filterMap id).isEmpty then none
          else some (parsed.filterMap id)⟩) ∧
    ∀ entries, (∀ e ∈ entries, wfEntry e = true) →
      parseMethods none entries = .ok ((entries.filter (keepEntry none)).map entrySec) :=
  audit_order_preserved scenarioAClient none scenarioAReport rfl

/-- C9: parsing the structured-compact rendering back from its encoded
form reconstructs a report equivalent to the original — same fields
present, same values; the decoder works by key lookup only, so field order
is not significant for this direction, as the reversed-field decoding
shows. -/
theorem structured_roundtrip :
    (∀ report, decodeReport (reportToJson report) = some report) ∧
    ∀ a : ApiAudit, decodeApiAudit (.obj (apiAuditFields a).reverse) = some a :=
  ⟨decodeReport_enc, decodeApiAudit_fields_rev⟩

/-- C10: with a non-empty filter in effect, the security attributes of an
entry whose verb is not in the filter are never read: a resource whose
excluded entries are malformed still parses successfully, provided every
included entry is well-formed and every entry carries `httpMethod`. -/
theorem filtered_entries_not_read (l : List String) (R : RawResource)
    (_hne : l ≠ [])
    (hverb : ∀ e ∈ entriesOf R, e.2.httpMethod.isSome)
    (hsec : ∀ e ∈ entriesOf R, ∀ m ∈ l, e.2.httpMethod = some m →
      e.2.authorizationType.isSome ∧ e.2.apiKeyRequired.isSome) :
    ∃ r, parse_resource (some l) R = .ok r := by
  cases hres : R.resourceMethods with
  | none => exact ⟨none, by simp [parse_resource, hres]⟩
  | some entries =>
    have hent : entriesOf R = entries := by simp [entriesOf, hres]
    have hsec' : ∀ e ∈ entries, ∀ m, e.2.httpMethod = some m →
        includeMethod (some l) m = true →
        e.2.authorizationType.isSome ∧ e.2.apiKeyRequired.isSome := by
      intro e he m hm hinc
      have hmem : m ∈ l := of_decide_eq_true (by simpa [includeMethod] using hinc)
      exact hsec e (hent ▸ he) m hmem hm
    obtain ⟨ms, hms⟩ := parseMethods_total (some l) entries (hent ▸ hverb) hsec'
    cases hemp : ms.isEmpty with
    | true => exact ⟨none, by simp [parse_resource, hres, hms, hemp]⟩
    | false =>
      exact ⟨some ⟨R.path, ms⟩, by simp [parse_resource, hres, hms, hemp]⟩

/-- C10 witness: under filter `{POST}`, a resource whose excluded `GET`
entry lacks both security attributes still parses. -/
theorem filtered_entries_not_read_witness :
    ∃ r, parse_resource (some ["POST"]) mixedRaw = .ok r :=
  filtered_entries_not_read ["POST"] mixedRaw (by decide) (by decide) (by decide)

end ApiGatewayAudit
